import Mathlib

/-!
Verification development for the `shopify_dev_utils` asset-synchronization
pipeline.  The definitions below are shallow embeddings of the JavaScript
source files:

* `src/utils.js` — `run_sync` (Task Sequencer) and `run_async`
  (Task Parallelizer), embedded as pure functions over explicit task lists
  and completion-event traces;
* `src/requestor_factories/api_requests.js` — the leaky-bucket throttle
  around `make_requestor` (`request_count`, `overflow`, `start_polling`,
  `start_throttling`), embedded as a state machine driven by submit /
  poller-tick / throttler-tick events;
* `src/index.js` — the theme path-resolution rules of
  `theme_event_handler`, the scripts-root event decision of
  `updateScripts`, and the `_script-order` manifest handling of
  `sortJsFiles`;
* `src/unnamed/part_000` — the `Link`-header cursor extraction of
  `make_requestor` and the pagination loop of `download_resource`.

JavaScript numbers are embedded as `Int` where they can be decremented
(the request budget) and as `Nat` where they only count up; `null` and
`undefined` become `Option.none`; callback invocations are recorded in
explicit logs so that "called exactly once" is a provable statement
rather than a modelling assumption.
-/

namespace ShopifyDevUtils

/-! ## Callback calls

A continuation in this codebase is invoked either as `cb(value)` (success,
`value` non-null) or as `cb(null, reason)` / `cb(undefined, reason)`
(failure).  `CbCall` records one such invocation; `reason` is optional
because several call sites pass no reason (JavaScript `undefined`). -/

inductive CbCall (C R : Type) where
  | done (ctx : C) : CbCall C R
  | fail (reason : Option R) : CbCall C R
  deriving Repr, DecidableEq

/-! ## Task Sequencer — `run_sync` (src/utils.js, lines 44-64)

A requestor is invoked with a continuation and the current context and
calls the continuation exactly once (the hypothesis of claims C4/C10),
so it is embedded as a pure function from the context to the pair
`(value, reason)` it passes to its continuation; `value = none` is the
JavaScript `null`.  `start_requestor` returns the list of `cb`
invocations made by `run_sync`'s terminal callback together with the
number of requestors that were started. -/

def start_requestor {C R : Type} :
    List (C → Option C × Option R) → Option C → Option R →
      List (CbCall C R) × Nat
  | _, none, reason => ([CbCall.fail reason], 0)
  | [], some v, _ => ([CbCall.done v], 0)
  | t :: rest, some v, _ =>
      let r := t v
      let out := start_requestor rest r.1 r.2
      (out.1, out.2 + 1)

def run_sync {C R : Type} (requestors : List (C → Option C × Option R))
    (initial_value : Option C) : List (CbCall C R) × Nat :=
  start_requestor requestors initial_value none

/-- Index and reason of the first requestor in the list that passes `null`
to its continuation, threading the context exactly as `run_sync` does. -/
def first_failure {C R : Type} :
    List (C → Option C × Option R) → C → Option (Nat × Option R)
  | [], _ => none
  | t :: rest, v =>
      match t v with
      | (none, r) => some (0, r)
      | (some v', _) =>
          match first_failure rest v' with
          | none => none
          | some (k, r) => some (k + 1, r)

/-- The context produced by threading the whole requestor list, when no
requestor fails. -/
def final_context {C R : Type} :
    List (C → Option C × Option R) → C → Option C
  | [], v => some v
  | t :: rest, v =>
      match t v with
      | (none, _) => none
      | (some v', _) => final_context rest v'

/-! ## Task Parallelizer — `run_async` (src/utils.js, lines 67-102)

`run_async` dispatches every requestor and counts completions in
`check_in`.  The embedding replays a trace of events: each requestor
eventually reports success (`check_in` called with non-null data) or
failure (`check_in` called with `null` and a reason), and when a
`time_limit` was given, the timer may fire (`requestors = undefined`).
The `len` field is `requestors.length`, which becomes `none` once the
timer has cleared the variable; reading `.length` of `undefined` throws
a `TypeError`, recorded in the `crashed` flag (the exception escapes the
completion callback, so nothing further runs). -/

inductive AsyncCall (R : Type) where
  | done : AsyncCall R
  | fail (reason : Option R) : AsyncCall R
  deriving Repr, DecidableEq

inductive AsyncEv (R : Type) where
  | succeed : AsyncEv R
  | failWith (reason : R) : AsyncEv R
  | timeout : AsyncEv R
  deriving Repr, DecidableEq

structure AsyncState (R : Type) where
  len : Option Nat
  num_checked_in : Nat
  calls : List (AsyncCall R)
  crashed : Bool
  deriving Repr, DecidableEq

def async_step {R : Type} (s : AsyncState R) (e : AsyncEv R) : AsyncState R :=
  if s.crashed then s else
  match e with
  | AsyncEv.timeout => { s with len := none }
  | AsyncEv.failWith r =>
      { s with num_checked_in := s.num_checked_in + 1,
               calls := s.calls ++ [AsyncCall.fail (some r)] }
  | AsyncEv.succeed =>
      let n' := s.num_checked_in + 1
      match s.len with
      | none => { s with num_checked_in := n', crashed := true }
      | some len =>
          if n' = len then
            { s with num_checked_in := n', calls := s.calls ++ [AsyncCall.done] }
          else
            { s with num_checked_in := n' }

def run_async {R : Type} (num_requestors : Nat) (events : List (AsyncEv R)) :
    AsyncState R :=
  events.foldl async_step ⟨some num_requestors, 0, [], false⟩

/-- The `cb` invocations `check_in` performs on a trace of completions,
written as a direct recursion: a failure always produces a
`cb(null, reason)` call, and the completion that raises the count to the
requestor total produces a `cb()` call when it reports success.
`checked_in` is the number of completions already counted. -/
def async_expected_calls {R : Type} (num_requestors : Nat) :
    Nat → List (AsyncEv R) → List (AsyncCall R)
  | _, [] => []
  | checked_in, AsyncEv.failWith r :: es =>
      AsyncCall.fail (some r) :: async_expected_calls num_requestors (checked_in + 1) es
  | checked_in, AsyncEv.succeed :: es =>
      (if checked_in + 1 = num_requestors then [AsyncCall.done] else []) ++
        async_expected_calls num_requestors (checked_in + 1) es
  | checked_in, AsyncEv.timeout :: es =>
      async_expected_calls num_requestors checked_in es

/-! ## Rate-Limited Remote Writer — leaky-bucket throttle
(src/requestor_factories/api_requests.js, lines 69-152 and 226-268)

Module state: `request_count` (a JavaScript number that is incremented on
every dispatched request and decremented by the poller, embedded as
`Int`), the `overflow` queue of deferred start-closures (embedded as the
queue of request identifiers), and the `is_polling` / `is_throttling`
flags.  Because `setTimeout` chains are only ever (re)armed while their
flag is set, `is_polling` and `is_throttling` coincide with "a poller
(resp. throttler) tick is pending", so the event-loop behaviour is
replayed by three events: a requestor invocation (`submit`), a pending
poller timeout firing (`poll`), and a pending throttler timeout firing
(`throttle`).

The bookkeeping fields record the observable history: `started` logs
every `make_request` dispatch as `(id, request_count at the instant of
dispatch — before `add_request_to_bucket`, whether the closure was popped
from `overflow`)`; `pushed` and `drained` log the overflow queue's pushes
and shifts in order. -/

def bucket_size : Int := 40

def padding : Int := 5

def bucket_limit : Int := bucket_size - padding

structure RLState where
  request_count : Int
  overflow : List Nat
  is_polling : Bool
  is_throttling : Bool
  started : List (Nat × Int × Bool)
  pushed : List Nat
  drained : List Nat
  deriving Repr, DecidableEq

def rl_init : RLState := ⟨0, [], false, false, [], [], []⟩

/-- `make_request` (api_requests.js, lines 242-268): `add_request_to_bucket`
increments `request_count` and the HTTPS request is dispatched. -/
def make_request (s : RLState) (id : Nat) (from_queue : Bool) : RLState :=
  { s with request_count := s.request_count + 1,
           started := s.started ++ [(id, s.request_count, from_queue)] }

/-- `start_polling` (lines 97-119): sets `is_polling`, arms the first
timeout, and the first synchronous `poller()` run decrements the count
when it is positive. -/
def start_polling (s : RLState) : RLState :=
  let s1 := { s with is_polling := true }
  if 0 < s1.request_count then
    { s1 with request_count := s1.request_count - 1 }
  else s1

/-- A pending poller timeout fires (lines 100-115): with a positive count
it re-arms and decrements; otherwise polling stops. -/
def poll_tick (s : RLState) : RLState :=
  if s.is_polling = false then s
  else if 0 < s.request_count then
    { s with request_count := s.request_count - 1 }
  else { s with is_polling := false }

/-- One synchronous `throttler()` run minus its re-arming (lines 131-148):
with headroom it shifts the oldest deferred closure off `overflow` and
runs it.  Both call sites only run this with a non-empty `overflow`
(`overflow.push` precedes `start_throttling`, and the timeout callback
checks `overflow.length > 0`), so the empty branch — where the
JavaScript would call `undefined()` — is unreachable. -/
def throttler_run (s : RLState) : RLState :=
  if s.request_count < bucket_limit then
    match s.overflow with
    | [] => s
    | id :: rest =>
        make_request
          { s with overflow := rest, drained := s.drained ++ [id] } id true
  else s

/-- `start_throttling` (lines 126-152): sets `is_throttling`, arms the
first timeout, and runs the first synchronous `throttler()`. -/
def start_throttling (s : RLState) : RLState :=
  throttler_run { s with is_throttling := true }

/-- A pending throttler timeout fires (lines 132-147): with a non-empty
`overflow` it re-arms and runs `throttler()`; otherwise throttling
stops. -/
def throttle_tick (s : RLState) : RLState :=
  if s.is_throttling = false then s
  else if s.overflow = [] then { s with is_throttling := false }
  else throttler_run s

/-- The requestor body (lines 226-240): with an empty overflow queue and
headroom it starts polling if necessary and dispatches immediately;
otherwise it pushes the start-closure onto `overflow` and starts the
throttler if necessary. -/
def submit (s : RLState) (id : Nat) : RLState :=
  if s.overflow = [] ∧ s.request_count < bucket_limit then
    let s1 := if s.is_polling then s else start_polling s
    make_request s1 id false
  else
    let s1 := { s with overflow := s.overflow ++ [id],
                       pushed := s.pushed ++ [id] }
    if s1.is_throttling then s1 else start_throttling s1

inductive RLEv where
  | submit (id : Nat)
  | poll
  | throttle
  deriving Repr, DecidableEq

def rl_step (s : RLState) : RLEv → RLState
  | RLEv.submit id => submit s id
  | RLEv.poll => poll_tick s
  | RLEv.throttle => throttle_tick s

def rl_run (events : List RLEv) : RLState := events.foldl rl_step rl_init

/-- The request identifiers submitted in a trace, in submission order. -/
def rl_submits (events : List RLEv) : List Nat :=
  events.filterMap (fun e =>
    match e with
    | RLEv.submit id => some id
    | _ => none)

/-- The identifiers of requests that were dispatched immediately (not via
the overflow queue), in dispatch order. -/
def immediate_starts (s : RLState) : List Nat :=
  s.started.filterMap (fun e => if e.2.2 then none else some e.1)

/-- The identifiers of requests that were dispatched after waiting in the
overflow queue, in dispatch order. -/
def queue_starts (s : RLState) : List Nat :=
  s.started.filterMap (fun e => if e.2.2 then some e.1 else none)

/-- The state invariant of the throttle: the budget counter stays within
`[0, bucket_limit]`, the overflow bookkeeping is consistent (everything
ever pushed is exactly what was drained followed by what is still
queued, and the drained log is exactly the queue-origin dispatches in
dispatch order), and every dispatch found the counter strictly below the
limit. -/
def rl_inv (s : RLState) : Prop :=
  0 ≤ s.request_count ∧ s.request_count ≤ bucket_limit ∧
  s.pushed = s.drained ++ s.overflow ∧
  queue_starts s = s.drained ∧
  ∀ e ∈ s.started, e.2.1 < bucket_limit

/-! ## Path Resolution Engine — theme root
(src/index.js, lines 30-39 and 355-448)

`theme_event_handler` derives the remote key from the changed file's
path: `file_name` is `Path.parse(file_path).base` and `dir_path_parts`
is the parsed directory split on the path separator.  The embedding
takes the directory components and the file name (the `path` module is
an external collaborator), and rebuilds the full path string for the
`file_path.includes("snippets/inline-scripts")` check. -/

/-- `s.includes(pat)` of JavaScript: `pat` occurs contiguously in `s`. -/
def contains_substr (s pat : String) : Bool :=
  decide (pat.toList <:+: s.toList)

def theme_dirs : List String :=
  ["config", "snippets", "sections", "templates/customers", "templates",
   "layout", "locales", "assets"]

/-- The `write_path` computed at src/index.js lines 379-392.  A directory
index that the JavaScript would read as `undefined` (fewer than two
components) is modelled by the `""` default; every claim instance has at
least two components. -/
def theme_write_path_base (dir_parts : List String) (file_name : String) :
    String :=
  let file_dir := dir_parts.getLastD ""
  if theme_dirs.contains file_dir then
    file_dir ++ "/" ++ file_name
  else
    let theme_sub_dir := file_dir
    let theme_dir := dir_parts.dropLast.getLastD ""
    if theme_sub_dir = "customers" ∧ theme_dir = "templates" then
      "templates/customers/" ++ file_name
    else
      theme_dir ++ "/" ++ file_name

/-- The final `write_path` including the `snippets/inline-scripts`
special case (src/index.js lines 430-432), which overrides the key to
`snippets/<file_name>`. -/
def theme_write_path (dir_parts : List String) (file_name : String) :
    String :=
  let file_path := String.intercalate "/" (dir_parts ++ [file_name])
  if contains_substr file_path "snippets/inline-scripts" then
    "snippets/" ++ file_name
  else
    theme_write_path_base dir_parts file_name

/-! ## Path Resolution Engine — scripts root
(src/index.js, lines 192-335)

`updateScripts` keeps the `ignoreFileEvents` flag, set for one second
after every directory-level event; `scriptEventHandler` then decides
which operation to run.  The embedding takes the flag's current value
and the raw event, and returns the operation dispatched (or `none` when
the handler returns without dispatching anything). -/

inductive WatchEv where
  | add
  | change
  | unlink
  | addDir
  | unlinkDir
  deriving Repr, DecidableEq

inductive ScriptAction where
  | deleteGroupless (module_path : String)
  | packageGroup (module_group_path : String)
  | packageModule (module_path : String)
  deriving Repr, DecidableEq

/-- Split a character list at every occurrence of `sep`, keeping empty
fields, as JavaScript's `String.prototype.split` with a one-character
separator does (`n` separators produce `n + 1` fields). -/
def split_char (sep : Char) : List Char → List (List Char)
  | [] => [[]]
  | c :: rest =>
      if c = sep then [] :: split_char sep rest
      else
        match split_char sep rest with
        | [] => [[c]]
        | f :: fs => (c :: f) :: fs

/-- `p.split("/")`. -/
def split_slash (p : String) : List String :=
  (split_char '/' p.toList).map String.mk

/-- JavaScript whitespace for `String.prototype.trim`. -/
def is_space_char (c : Char) : Bool :=
  c = ' ' ∨ c = '\t' ∨ c = '\n' ∨ c = '\r'

/-- `s.trim()`. -/
def js_trim (s : String) : String :=
  String.mk
    (((s.toList.dropWhile is_space_char).reverse.dropWhile is_space_char).reverse)

/-- `Path.parse(p).base`: the last path component. -/
def path_base (p : String) : String :=
  (split_slash p).getLastD ""

/-- `Path.parse(p).name`: the last path component with its extension
stripped; the extension starts at the last dot, unless that dot is the
component's first character. -/
def path_name (p : String) : String :=
  let base := path_base p
  let cs := base.toList
  let dot_positions :=
    (List.range cs.length).filter (fun i => cs.getD i ' ' = '.' ∧ 0 < i)
  match dot_positions.getLast? with
  | none => base
  | some i => String.mk (cs.take i)

/-- `Path.parse(Path.parse(filePath).dir).name` (src/index.js line 214). -/
def parent_dir_name (file_path : String) : String :=
  path_name (String.intercalate "/" (split_slash file_path).dropLast)

/-- `getPathToScriptModuleGroup` (src/index.js lines 331-335): the
directory components up to and including the one directly below
`scripts`. -/
def module_group_path (file_path : String) : String :=
  let dir_parts := (split_slash file_path).dropLast
  String.intercalate "/" (dir_parts.take (dir_parts.indexOf "scripts" + 2))

/-- `scriptEventHandler` (src/index.js lines 202-240).  The early-return
condition is the source's `ignoreFileEvents && event === "add" ||
event === "unlink"`, which JavaScript parses as
`(ignoreFileEvents && event === "add") || (event === "unlink")`. -/
def script_event_decision (ignore_file_events : Bool) (event : WatchEv)
    (file_path : String) : Option ScriptAction :=
  if (ignore_file_events = true ∧ event = WatchEv.add) ∨ event = WatchEv.unlink
  then
    none
  else
    let parentDirName := parent_dir_name file_path
    let moduleGroupPath := module_group_path file_path
    let isDirectoryEvent := event = WatchEv.addDir ∨ event = WatchEv.unlinkDir
    if isDirectoryEvent then
      if ¬event = WatchEv.addDir ∧ parentDirName = "scripts" then
        some (ScriptAction.deleteGroupless file_path)
      else
        some (ScriptAction.packageGroup moduleGroupPath)
    else
      let moduleIsFile := parentDirName = "scripts" ∨ parentDirName = "templates"
      if event = WatchEv.unlink ∧ moduleIsFile then
        some (ScriptAction.deleteGroupless file_path)
      else if event = WatchEv.change ∨ event = WatchEv.add ∨ event = WatchEv.unlink
      then
        if moduleIsFile then some (ScriptAction.packageModule file_path)
        else some (ScriptAction.packageGroup moduleGroupPath)
      else
        none

/-! ## Script module group packaging — `sortJsFiles`
(src/index.js, lines 281-329)

`packageJsModuleGroup` lists the group's files and runs `sortJsFiles`,
which reorders `data.files` according to a `_script-order` manifest when
one is present.  Directory listing and file reading are external
collaborators, passed in as oracles: `listing` is
`Fs.get_all_file_paths` and `read_file` is `fs.readFile` (`none` for a
read error, which makes the requestor fail).  JavaScript's
`Array.prototype.sort` on strings is embedded as an insertion sort by
`≤`. -/

/-- Lexicographic character-code comparison, JavaScript's default string
comparison for `Array.prototype.sort`. -/
def chars_le : List Char → List Char → Bool
  | [], _ => true
  | _ :: _, [] => false
  | a :: as, b :: bs =>
      if a = b then chars_le as bs else decide (a < b)

def str_le (a b : String) : Bool :=
  chars_le a.toList b.toList

def insert_sorted (x : String) : List String → List String
  | [] => [x]
  | y :: ys => if str_le x y then x :: y :: ys else y :: insert_sorted x ys

def sort_strings (l : List String) : List String :=
  l.foldr insert_sorted []

/-- The inner `sortFilePaths` loop (lines 298-320): each manifest name
that matches a direct file (by `Path.parse(...).name`) contributes that
file; any other name is treated as a sub-collection directory whose
files are listed and lexically sorted before being appended. -/
def sort_file_paths (listing : String → List String) (group_path : String)
    (module_file_paths : List String) : List String → List String
  | [] => []
  | n :: rest =>
      match module_file_paths.find? (fun p => path_name p = n) with
      | some p => p :: sort_file_paths listing group_path module_file_paths rest
      | none =>
          sort_strings (listing (group_path ++ "/" ++ n)) ++
            sort_file_paths listing group_path module_file_paths rest

/-- `sortJsFiles` (lines 281-329): when no `_script-order` manifest is
present among the files, `data.files` is left unchanged; otherwise the
manifest is read, split on commas, trimmed, and the loop above rebuilds
`data.files`.  `none` is the `cb(null, err)` outcome of a read error. -/
def sortJsFiles (listing : String → List String)
    (read_file : String → Option String) (group_path : String)
    (files : List String) : Option (List String) :=
  let names := files.map path_name
  if names.contains "_script-order" then
    match files.find? (fun p => path_name p = "_script-order") with
    | none => none
    | some manifest_path =>
        match read_file manifest_path with
        | none => none
        | some text =>
            let module_names :=
              ((split_char ',' text.toList).map String.mk).map js_trim
            some (sort_file_paths listing group_path files module_names)
  else
    some files

/-! ## Paginated resource reader
(src/unnamed/part_000, lines 694-710 and 903-953)

The GET branch of `make_requestor` derives `data.next` from the `Link`
response header: the header is split on `<` and `>`, and the cursor is
the fourth part when the header also carries a `rel="previous"` entry,
the second part otherwise; a missing header or one without `rel="next"`
yields `null`.  A missing split index is JavaScript `undefined`, which —
like `null` and the empty string — is falsy and therefore terminates
`download_resource`'s loop exactly like `null`. -/

def split_chars : List Char → List (List Char)
  | [] => [[]]
  | c :: rest =>
      if c = '<' ∨ c = '>' then [] :: split_chars rest
      else
        match split_chars rest with
        | [] => [[c]]
        | s :: ss => (c :: s) :: ss

/-- `headerLink.split(/\<|\>/g)`. -/
def split_on_angles (s : String) : List String :=
  (split_chars s.toList).map String.mk

/-- The `data.next` computation (part_000, lines 694-706): `none` is
`null` or `undefined`. -/
def extract_next (header_link : Option String) : Option String :=
  match header_link with
  | none => none
  | some h =>
      if contains_substr h "rel=\"next\"" then
        let parts := split_on_angles h
        if contains_substr h "rel=\"previous\"" then parts[3]? else parts[1]?
      else none

/-- JavaScript truthiness of the cursor in `data.next ? recurse : cb`. -/
def truthy : Option String → Bool
  | none => false
  | some s => !s.isEmpty

/-- One response page of the remote resource API: its parsed items and
its `Link` response header (if any). -/
structure ApiPage (α : Type) where
  items : List α
  link : Option String

/-- `download_resource` (part_000, lines 903-953) driven by the list of
response pages the endpoint returns, in order: each consumed page is one
issued request; its items are appended to `resources`; the loop re-issues
while the extracted cursor is truthy.  Returns the aggregated items and
the number of requests issued.  The empty-list branch (the endpoint never
responds) is outside the claims' scope: the real requestor would simply
wait. -/
def download_resource {α : Type} : List (ApiPage α) → List α → List α × Nat
  | [], acc => (acc, 0)
  | p :: rest, acc =>
      let acc' := acc ++ p.items
      if truthy (extract_next p.link) then
        let out := download_resource rest acc'
        (out.1, out.2 + 1)
      else
        (acc', 1)

/-! ## Theorems -/

/-- The success branches of `start_requestor` ignore the reason that was
passed along with a non-null value. -/
theorem start_requestor_some_reason {C R : Type}
    (ts : List (C → Option C × Option R)) (v : C) (r r' : Option R) :
    start_requestor ts (some v) r = start_requestor ts (some v) r' := by
  cases ts <;> simp [start_requestor]

/-- C4: running the Task Sequencer on a non-null initial context, with
every requestor invoking its continuation exactly once, calls `on_done`
exactly once — with the final context when every requestor succeeds, or
with the failure sentinel and the first failing requestor's reason, in
which case exactly the requestors up to and including the failing one
were started (the count `k + 1` is at most the list length, so no
later requestor ran). -/
theorem c4_run_sync_single_terminal {C R : Type}
    (ts : List (C → Option C × Option R)) (c : C) :
    (run_sync ts (some c)).1.length = 1 ∧
    (∀ d, final_context ts c = some d →
      run_sync ts (some c) = ([CbCall.done d], ts.length)) ∧
    (∀ k r, first_failure ts c = some (k, r) →
      run_sync ts (some c) = ([CbCall.fail r], k + 1) ∧ k < ts.length) := by
  induction ts generalizing c with
  | nil =>
      refine ⟨rfl, ?_, ?_⟩
      · intro d hd
        simp [final_context] at hd
        simp [run_sync, start_requestor, hd]
      · intro k r hk
        simp [first_failure] at hk
  | cons t rest ih =>
      rcases ht : t c with ⟨v, r0⟩
      cases v with
      | none =>
          refine ⟨?_, ?_, ?_⟩
          · simp [run_sync, start_requestor, ht]
          · intro d hd
            simp [final_context, ht] at hd
          · intro k r hk
            simp [first_failure, ht] at hk
            obtain ⟨hk0, hr⟩ := hk
            subst hk0; subst hr
            constructor
            · simp [run_sync, start_requestor, ht]
            · simp
      | some c' =>
          obtain ⟨ihlen, ihdone, ihfail⟩ := ih c'
          have hrw : run_sync (t :: rest) (some c) =
              ((run_sync rest (some c')).1, (run_sync rest (some c')).2 + 1) := by
            simp only [run_sync, start_requestor, ht]
            rw [start_requestor_some_reason rest c' r0 none]
          refine ⟨?_, ?_, ?_⟩
          · rw [hrw]; exact ihlen
          · intro d hd
            simp only [final_context, ht] at hd
            rw [hrw, ihdone d hd]
            simp
          · intro k r hk
            simp only [first_failure, ht] at hk
            rcases hff : first_failure rest c' with _ | ⟨k', r'⟩
            · rw [hff] at hk; simp at hk
            · rw [hff] at hk
              simp at hk
              obtain ⟨hk1, hk2⟩ := hk
              obtain ⟨hres, hlt⟩ := ihfail k' r' hff
              subst hk1; subst hk2
              rw [hrw, hres]
              constructor
              · simp
              · simp; omega

/-- C4 witness: a concrete one-requestor chain that succeeds. -/
theorem c4_witness :
    run_sync [fun (n : Nat) => (some (n + 1), (none : Option String))] (some 3) =
      ([CbCall.done 4], 1) := by
  have h := (c4_run_sync_single_terminal
    [fun (n : Nat) => (some (n + 1), (none : Option String))] 3).2.1 4 (by rfl)
  exact h

/-- C10: the Task Sequencer uses `null` as an in-band failure sentinel
for the context itself — a null initial context makes `on_done` fire
immediately with the failure sentinel and an undefined reason, with zero
requestors started; and a requestor that passes `null` as its "success"
context aborts the chain exactly like a failure, with the same single
`on_done(null, reason)` outcome whatever requestors follow. -/
theorem c10_null_context_sentinel {C R : Type}
    (ts : List (C → Option C × Option R)) (r : Option R) (c : C) :
    run_sync ts none = ([CbCall.fail none], 0) ∧
    run_sync ((fun _ => (none, r)) :: ts) (some c) = ([CbCall.fail r], 1) := by
  constructor
  · cases ts <;> rfl
  · simp [run_sync, start_requestor]

/-- C3 counterexample: with two requestors, the first completion a
failure and the second a success, `run_async`'s `check_in` invokes the
aggregate callback twice — `cb(null, "boom")` at the failure, then
`cb()` when the completion count reaches the requestor total — so
`on_done` is not invoked exactly once. -/
theorem c3_counterexample :
    (run_async 2 [AsyncEv.failWith "boom", AsyncEv.succeed]).calls =
      [AsyncCall.fail (some "boom"), AsyncCall.done] ∧
    (run_async 2 [AsyncEv.failWith "boom", AsyncEv.succeed]).calls.length ≠ 1 := by
  constructor
  · rfl
  · decide

/-- `check_in`'s calls over a timeout-free trace, from an arbitrary
mid-run state. -/
theorem run_async_calls_aux {R : Type} (n : Nat) :
    ∀ (events : List (AsyncEv R)) (s : AsyncState R),
      s.crashed = false → s.len = some n → AsyncEv.timeout ∉ events →
      (events.foldl async_step s).calls =
        s.calls ++ async_expected_calls n s.num_checked_in events ∧
      (events.foldl async_step s).crashed = false := by
  intro events
  induction events with
  | nil =>
      intro s hc hl _
      simp [async_expected_calls, hc]
  | cons e es ih =>
      intro s hc hl hmem
      obtain ⟨len, num, calls, crashed⟩ := s
      simp only at hc hl
      subst hc; subst hl
      have hne : e ≠ AsyncEv.timeout := by
        intro h
        exact hmem (h ▸ List.mem_cons_self e es)
      have hmem' : AsyncEv.timeout ∉ es := fun h => hmem (List.mem_cons_of_mem e h)
      cases e with
      | timeout => exact absurd rfl hne
      | failWith r =>
          have hstep : async_step ⟨some n, num, calls, false⟩ (AsyncEv.failWith r) =
              ⟨some n, num + 1, calls ++ [AsyncCall.fail (some r)], false⟩ := rfl
          rw [List.foldl_cons, hstep]
          obtain ⟨h1, h2⟩ := ih ⟨some n, num + 1, calls ++ [AsyncCall.fail (some r)], false⟩
            rfl rfl hmem'
          refine ⟨?_, h2⟩
          rw [h1]
          simp [async_expected_calls]
      | succeed =>
          by_cases hn : num + 1 = n
          · have hstep : async_step ⟨some n, num, calls, false⟩ AsyncEv.succeed =
                ⟨some n, num + 1, calls ++ [AsyncCall.done], false⟩ := by
              simp [async_step, hn]
            rw [List.foldl_cons, hstep]
            obtain ⟨h1, h2⟩ := ih ⟨some n, num + 1, calls ++ [AsyncCall.done], false⟩
              rfl rfl hmem'
            refine ⟨?_, h2⟩
            rw [h1]
            simp [async_expected_calls, hn]
          · have hstep : async_step ⟨some n, num, calls, false⟩ AsyncEv.succeed =
                ⟨some n, num + 1, calls, false⟩ := by
              simp [async_step, hn]
            rw [List.foldl_cons, hstep]
            obtain ⟨h1, h2⟩ := ih ⟨some n, num + 1, calls, false⟩ rfl rfl hmem'
            refine ⟨?_, h2⟩
            rw [h1]
            simp [async_expected_calls, hn]

/-- C3 amended: when no time limit fires, `run_async` reports the first
failure immediately with the failure sentinel and its reason, but later
completions are not ignored — every subsequent failure invokes the
callback again with the sentinel and its own reason, and the completion
that brings the count to the requestor total invokes it once more with
no arguments when it reports success (`async_expected_calls` makes this
schedule explicit); no completion makes the process crash. -/
theorem c3_run_async_every_failure_reported {R : Type} (n : Nat)
    (events : List (AsyncEv R)) (h : AsyncEv.timeout ∉ events) :
    (run_async n events).calls = async_expected_calls n 0 events ∧
    (run_async n events).crashed = false := by
  have := run_async_calls_aux n events ⟨some n, 0, [], false⟩ rfl rfl h
  simpa [run_async] using this

/-- C3 witness: two successes out of two requestors produce exactly the
final `cb()` call. -/
theorem c3_witness :
    (run_async 2 [AsyncEv.succeed, AsyncEv.succeed] (R := String)).calls =
      async_expected_calls 2 0 [AsyncEv.succeed, AsyncEv.succeed] ∧
    (run_async 2 [AsyncEv.succeed, AsyncEv.succeed] (R := String)).crashed =
      false :=
  c3_run_async_every_failure_reported 2 [AsyncEv.succeed, AsyncEv.succeed]
    (by decide)

/-- C9: completions arriving after the time limit has fired are not
silently orphaned.  With one requestor still in flight when the timer
clears `requestors`: a late success makes `check_in` read `.length` of
`undefined`, which throws (the `crashed` flag) instead of being a
no-op; a late failure invokes the aggregate callback with the failure
sentinel and its reason, an `on_done` invocation after the limit. -/
theorem c9_late_completions_not_orphaned :
    (run_async (R := String) 1 [AsyncEv.timeout, AsyncEv.succeed]).crashed =
      true ∧
    (run_async (R := String) 1 [AsyncEv.timeout, AsyncEv.succeed]).calls =
      [] ∧
    (run_async (R := String) 1 [AsyncEv.timeout, AsyncEv.failWith "late"]).calls =
      [AsyncCall.fail (some "late")] := by
  refine ⟨rfl, rfl, rfl⟩

/-- `rl_inv` on an explicit state, unfolded. -/
theorem rl_inv_mk (c : Int) (o : List Nat) (p t : Bool)
    (st : List (Nat × Int × Bool)) (pu dr : List Nat) :
    rl_inv ⟨c, o, p, t, st, pu, dr⟩ ↔
      (0 ≤ c ∧ c ≤ bucket_limit ∧ pu = dr ++ o ∧
       st.filterMap (fun e => if e.2.2 then some e.1 else none) = dr ∧
       ∀ e ∈ st, e.2.1 < bucket_limit) := Iff.rfl

theorem rl_inv_init : rl_inv rl_init := by
  rw [rl_init, rl_inv_mk]
  refine ⟨le_refl 0, by decide, rfl, rfl, ?_⟩
  intro e he
  simp at he

theorem rl_inv_throttler_run (s : RLState) (h : rl_inv s) :
    rl_inv (throttler_run s) := by
  obtain ⟨cnt, ovf, pol, thr, st, pu, dr⟩ := s
  rw [rl_inv_mk] at h
  obtain ⟨h0, h1, h2, h3, h4⟩ := h
  unfold throttler_run
  dsimp only
  split_ifs with hlt
  · cases ovf with
    | nil => exact (rl_inv_mk _ _ _ _ _ _ _).mpr ⟨h0, h1, h2, h3, h4⟩
    | cons id rest =>
        simp only [make_request]
        rw [rl_inv_mk]
        refine ⟨by omega, by omega, ?_, ?_, ?_⟩
        · rw [h2]
          simp
        · simp only [List.filterMap_append]
          rw [h3]
          simp
        · intro e he
          rcases List.mem_append.mp he with hin | hin
          · exact h4 e hin
          · simp at hin
            subst hin
            exact hlt
  · exact (rl_inv_mk _ _ _ _ _ _ _).mpr ⟨h0, h1, h2, h3, h4⟩

theorem rl_inv_make_request (s : RLState) (id : Nat)
    (h : rl_inv s) (hlt : s.request_count < bucket_limit) :
    rl_inv (make_request s id false) := by
  obtain ⟨cnt, ovf, pol, thr, st, pu, dr⟩ := s
  rw [rl_inv_mk] at h
  obtain ⟨h0, h1, h2, h3, h4⟩ := h
  dsimp only at hlt
  simp only [make_request]
  rw [rl_inv_mk]
  refine ⟨by omega, by omega, h2, ?_, ?_⟩
  · simp only [List.filterMap_append]
    rw [h3]
    simp
  · intro e he
    rcases List.mem_append.mp he with hin | hin
    · exact h4 e hin
    · simp at hin
      subst hin
      exact hlt

theorem rl_inv_start_polling (s : RLState) (h : rl_inv s) :
    rl_inv (start_polling s) ∧
    (start_polling s).request_count ≤ s.request_count ∧
    (start_polling s).overflow = s.overflow ∧
    (start_polling s).request_count ≥ 0 := by
  obtain ⟨cnt, ovf, pol, thr, st, pu, dr⟩ := s
  rw [rl_inv_mk] at h
  obtain ⟨h0, h1, h2, h3, h4⟩ := h
  unfold start_polling
  dsimp only
  split_ifs with hcnt
  · exact ⟨(rl_inv_mk _ _ _ _ _ _ _).mpr ⟨by omega, by omega, h2, h3, h4⟩,
      by dsimp only; omega, rfl, by dsimp only; omega⟩
  · exact ⟨(rl_inv_mk _ _ _ _ _ _ _).mpr ⟨h0, h1, h2, h3, h4⟩,
      le_refl _, rfl, h0⟩

theorem rl_inv_step (s : RLState) (e : RLEv) (h : rl_inv s) :
    rl_inv (rl_step s e) := by
  cases e with
  | poll =>
      obtain ⟨cnt, ovf, pol, thr, st, pu, dr⟩ := s
      rw [rl_inv_mk] at h
      obtain ⟨h0, h1, h2, h3, h4⟩ := h
      simp only [rl_step]
      unfold poll_tick
      dsimp only
      split_ifs with hp hcnt
      · exact (rl_inv_mk _ _ _ _ _ _ _).mpr ⟨h0, h1, h2, h3, h4⟩
      · exact (rl_inv_mk _ _ _ _ _ _ _).mpr ⟨by omega, by omega, h2, h3, h4⟩
      · exact (rl_inv_mk _ _ _ _ _ _ _).mpr ⟨h0, h1, h2, h3, h4⟩
  | throttle =>
      simp only [rl_step]
      unfold throttle_tick
      split_ifs with hthr hovf
      · exact h
      · obtain ⟨cnt, ovf, pol, thr, st, pu, dr⟩ := s
        rw [rl_inv_mk] at h
        obtain ⟨h0, h1, h2, h3, h4⟩ := h
        dsimp only at hovf
        subst hovf
        exact (rl_inv_mk _ _ _ _ _ _ _).mpr ⟨h0, h1, h2, h3, h4⟩
      · exact rl_inv_throttler_run s h
  | submit id =>
      simp only [rl_step]
      unfold submit
      split_ifs with hc hpol
      · exact rl_inv_make_request s id h hc.2
      · obtain ⟨hinv, hle, _, _⟩ := rl_inv_start_polling s h
        exact rl_inv_make_request (start_polling s) id hinv (lt_of_le_of_lt hle hc.2)
      · obtain ⟨cnt, ovf, pol, thr, st, pu, dr⟩ := s
        rw [rl_inv_mk] at h
        obtain ⟨h0, h1, h2, h3, h4⟩ := h
        dsimp only
        split_ifs with hthr
        · exact (rl_inv_mk _ _ _ _ _ _ _).mpr
            ⟨h0, h1, by rw [h2, List.append_assoc], h3, h4⟩
        · unfold start_throttling
          apply rl_inv_throttler_run
          exact (rl_inv_mk _ _ _ _ _ _ _).mpr
            ⟨h0, h1, by rw [h2, List.append_assoc], h3, h4⟩

theorem rl_inv_run (events : List RLEv) : rl_inv (rl_run events) := by
  have aux : ∀ (es : List RLEv) (s : RLState), rl_inv s →
      rl_inv (es.foldl rl_step s) := by
    intro es
    induction es with
    | nil => intro s h; exact h
    | cons e es ih =>
        intro s h
        exact ih _ (rl_inv_step s e h)
  exact aux events rl_init rl_inv_init

/-- C1: on every sequence of requestor invocations and timer ticks, the
budget counter satisfies `0 ≤ request_count ≤ bucket_limit`, and every
dispatched request — whether started immediately or popped from the
overflow queue — found `request_count` strictly below `bucket_limit` at
the instant of dispatch, so the increment performed by the dispatch
never takes it above `bucket_limit`. -/
theorem c1_request_budget_invariant (events : List RLEv) :
    0 ≤ (rl_run events).request_count ∧
    (rl_run events).request_count ≤ bucket_limit ∧
    ∀ e ∈ (rl_run events).started,
      e.2.1 < bucket_limit ∧ e.2.1 + 1 ≤ bucket_limit := by
  obtain ⟨h0, h1, _, _, h4⟩ := rl_inv_run events
  refine ⟨h0, h1, ?_⟩
  intro e he
  have := h4 e he
  exact ⟨this, by omega⟩

/-- C1 witness: a one-request trace; the dispatch happened at
`request_count = 0 < bucket_limit`. -/
theorem c1_witness :
    ((7, (0 : Int), false) ∈ (rl_run [RLEv.submit 7]).started) ∧
    ((0 : Int) < bucket_limit ∧ (0 : Int) + 1 ≤ bucket_limit) := by
  refine ⟨by decide, ?_⟩
  exact (c1_request_budget_invariant [RLEv.submit 7]).2.2 (7, 0, false) (by decide)

/-- Per-step growth of the dispatch and push logs: one step appends at
most the submitted identifier to the immediate-dispatch log and to the
push log. -/
theorem rl_step_logs (s : RLState) (e : RLEv) :
    ∃ a b, immediate_starts (rl_step s e) = immediate_starts s ++ a ∧
      (rl_step s e).pushed = s.pushed ++ b ∧
      List.Sublist a (rl_submits [e]) ∧ List.Sublist b (rl_submits [e]) := by
  cases e with
  | poll =>
      refine ⟨[], [], ?_, ?_, List.nil_sublist _, List.nil_sublist _⟩ <;>
      · obtain ⟨cnt, ovf, pol, thr, st, pu, dr⟩ := s
        simp only [rl_step]
        unfold poll_tick
        dsimp only
        split_ifs <;> simp [immediate_starts]
  | throttle =>
      obtain ⟨cnt, ovf, pol, thr, st, pu, dr⟩ := s
      simp only [rl_step]
      unfold throttle_tick
      dsimp only
      split_ifs with h1 h2
      · exact ⟨[], [], by simp, by simp, List.nil_sublist _, List.nil_sublist _⟩
      · exact ⟨[], [], by simp [immediate_starts], by simp,
          List.nil_sublist _, List.nil_sublist _⟩
      · unfold throttler_run
        dsimp only
        split_ifs with h3
        · cases ovf with
          | nil =>
              exact ⟨[], [], by simp, by simp,
                List.nil_sublist _, List.nil_sublist _⟩
          | cons id rest =>
              refine ⟨[], [], ?_, ?_, List.nil_sublist _, List.nil_sublist _⟩ <;>
                simp [immediate_starts, make_request, List.filterMap_append]
        · exact ⟨[], [], by simp, by simp,
            List.nil_sublist _, List.nil_sublist _⟩
  | submit id =>
      obtain ⟨cnt, ovf, pol, thr, st, pu, dr⟩ := s
      simp only [rl_step]
      unfold submit
      dsimp only
      split_ifs with hc hpol
      · refine ⟨[id], [], ?_, ?_, ?_, ?_⟩
        · simp [immediate_starts, make_request, List.filterMap_append]
        · simp [make_request]
        · simp [rl_submits]
        · simp [rl_submits]
      · refine ⟨[id], [], ?_, ?_, ?_, ?_⟩
        · unfold start_polling
          dsimp only
          split_ifs <;>
            simp [immediate_starts, make_request, List.filterMap_append]
        · unfold start_polling
          dsimp only
          split_ifs <;> simp [make_request]
        · simp [rl_submits]
        · simp [rl_submits]
      · refine ⟨[], [id], ?_, ?_, List.nil_sublist _, ?_⟩
        · simp [immediate_starts]
        · simp
        · simp [rl_submits]
      · refine ⟨[], [id], ?_, ?_, List.nil_sublist _, ?_⟩
        · unfold start_throttling throttler_run
          dsimp only
          split_ifs
          · cases hov : ovf ++ [id] <;>
              simp [immediate_starts, make_request, List.filterMap_append]
          · simp [immediate_starts]
        · unfold start_throttling throttler_run
          dsimp only
          split_ifs
          · cases hov : ovf ++ [id] <;>
              simp [make_request]
          · simp
        · simp [rl_submits]

theorem rl_submits_cons (e : RLEv) (es : List RLEv) :
    rl_submits (e :: es) = rl_submits [e] ++ rl_submits es := by
  cases e <;> simp [rl_submits]

/-- Over a whole trace, the immediate-dispatch log and the push log each
grow by an order-preserving selection of the submitted identifiers. -/
theorem rl_foldl_logs (events : List RLEv) :
    ∀ s : RLState,
      ∃ a b, immediate_starts (events.foldl rl_step s) = immediate_starts s ++ a ∧
        (events.foldl rl_step s).pushed = s.pushed ++ b ∧
        List.Sublist a (rl_submits events) ∧ List.Sublist b (rl_submits events) := by
  induction events with
  | nil =>
      intro s
      exact ⟨[], [], by simp, by simp, List.nil_sublist _, List.nil_sublist _⟩
  | cons e es ih =>
      intro s
      obtain ⟨a1, b1, ha1, hb1, sa1, sb1⟩ := rl_step_logs s e
      obtain ⟨a2, b2, ha2, hb2, sa2, sb2⟩ := ih (rl_step s e)
      refine ⟨a1 ++ a2, b1 ++ b2, ?_, ?_, ?_, ?_⟩
      · rw [List.foldl_cons, ha2, ha1, List.append_assoc]
      · rw [List.foldl_cons, hb2, hb1, List.append_assoc]
      · rw [rl_submits_cons]
        exact List.Sublist.append sa1 sa2
      · rw [rl_submits_cons]
        exact List.Sublist.append sb1 sb2

/-- C2: FIFO discipline of the throttle.  On every trace: requests that
found headroom were dispatched in submission order (the immediate-start
log is an order-preserving subsequence of the submissions); everything
pushed onto `overflow` was pushed in submission order; and the
queue-origin dispatches in dispatch order, followed by what is still
queued, are exactly the pushes in push order — so the drain cycle always
popped the oldest queued closure. -/
theorem c2_fifo_order (events : List RLEv) :
    queue_starts (rl_run events) ++ (rl_run events).overflow =
      (rl_run events).pushed ∧
    List.Sublist (immediate_starts (rl_run events)) (rl_submits events) ∧
    List.Sublist (rl_run events).pushed (rl_submits events) := by
  obtain ⟨_, _, h2, h3, _⟩ := rl_inv_run events
  refine ⟨by rw [h3, ← h2], ?_, ?_⟩
  · obtain ⟨a, b, ha, hb, sa, sb⟩ := rl_foldl_logs events rl_init
    simp only [rl_run]
    rw [ha]
    simpa [rl_init, immediate_starts] using sa
  · obtain ⟨a, b, ha, hb, sa, sb⟩ := rl_foldl_logs events rl_init
    simp only [rl_run]
    rw [hb]
    simpa [rl_init] using sb

/-- C5: the theme-root remote-key computation.  The spec's three
examples hold, and in general: a file directly inside a known top-level
theme directory maps to `<dir>/<filename>`; a file one level deeper
(inside a subdirectory that is not itself a theme-directory name) maps
by dropping the subdirectory component; except that files under
`templates/customers` keep their nesting. -/
theorem c5_theme_path_resolution :
    theme_write_path ["theme", "snippets"] "foo.liquid" =
      "snippets/foo.liquid" ∧
    theme_write_path ["theme", "sections", "promo"] "banner.liquid" =
      "sections/banner.liquid" ∧
    theme_write_path ["theme", "templates", "customers"] "login.liquid" =
      "templates/customers/login.liquid" ∧
    (∀ (p : List String) (d fn : String),
      d ∈ ["config", "snippets", "sections", "templates", "layout",
           "locales", "assets"] →
      contains_substr (String.intercalate "/" (p ++ [d] ++ [fn]))
        "snippets/inline-scripts" = false →
      theme_write_path (p ++ [d]) fn = d ++ "/" ++ fn) ∧
    (∀ (p : List String) (d sub fn : String),
      sub ∉ theme_dirs →
      ¬(sub = "customers" ∧ d = "templates") →
      contains_substr (String.intercalate "/" (p ++ [d, sub] ++ [fn]))
        "snippets/inline-scripts" = false →
      theme_write_path (p ++ [d, sub]) fn = d ++ "/" ++ fn) ∧
    (∀ (p : List String) (fn : String),
      contains_substr
        (String.intercalate "/" (p ++ ["templates", "customers"] ++ [fn]))
        "snippets/inline-scripts" = false →
      theme_write_path (p ++ ["templates", "customers"]) fn =
        "templates/customers/" ++ fn) := by
  refine ⟨by decide, by decide, by decide, ?_, ?_, ?_⟩
  · intro p d fn hd hsub
    have hmem : d ∈ theme_dirs := by fin_cases hd <;> decide
    rw [theme_write_path, if_neg (by simpa using hsub), theme_write_path_base]
    simp [hmem]
  · intro p d sub fn hnotin hnotcust hsub
    rw [theme_write_path, if_neg (by simpa using hsub), theme_write_path_base]
    simp [hnotin, hnotcust]
  · intro p fn hsub
    rw [theme_write_path, if_neg (by simpa using hsub), theme_write_path_base]
    have : ("customers" : String) ∉ theme_dirs := by decide
    simp [this]

/-- C5 witness: a flattened one-level-deep file. -/
theorem c5_witness :
    theme_write_path ["theme", "sections", "promo2"] "y.liquid" =
      "sections/y.liquid" :=
  c5_theme_path_resolution.2.2.2.2.1 ["theme"] "sections" "promo2" "y.liquid"
    (by decide) (by decide) (by decide)

/-- C8: suppression of file-level events at the scripts root.  `add`
events are suppressed exactly while the one-second directory window is
open, but — because the source's guard `ignoreFileEvents && event ===
"add" || event === "unlink"` parses as `(ignoreFileEvents && event ===
"add") || (event === "unlink")` — `unlink` events are suppressed
unconditionally, window or not, so a file deletion outside any window
dispatches nothing (while a `change` or `add` outside the window is
processed normally); the `unlink` handling further down the handler is
unreachable. -/
theorem c8_unlink_always_suppressed :
    (∀ p : String, script_event_decision true WatchEv.add p = none) ∧
    (∀ (b : Bool) (p : String),
      script_event_decision b WatchEv.unlink p = none) ∧
    script_event_decision false WatchEv.unlink "/base/scripts/foo.js" =
      none ∧
    script_event_decision false WatchEv.change "/base/scripts/foo.js" =
      some (ScriptAction.packageModule "/base/scripts/foo.js") ∧
    script_event_decision false WatchEv.add "/base/scripts/foo.js" =
      some (ScriptAction.packageModule "/base/scripts/foo.js") := by
  refine ⟨?_, ?_, by decide, by decide, by decide⟩
  · intro p
    simp [script_event_decision]
  · intro b p
    simp [script_event_decision]

/-! ### Lexical sorting used for manifest sub-collections -/

theorem insert_sorted_perm (x : String) (l : List String) :
    (insert_sorted x l).Perm (x :: l) := by
  induction l with
  | nil => simp [insert_sorted]
  | cons y ys ih =>
      unfold insert_sorted
      split_ifs
      · exact List.Perm.refl _
      · exact List.Perm.trans (List.Perm.cons y ih) (List.Perm.swap x y ys)

theorem chars_le_total (a b : List Char) :
    chars_le a b = true ∨ chars_le b a = true := by
  induction a generalizing b with
  | nil => left; rfl
  | cons x xs ih =>
      cases b with
      | nil => right; rfl
      | cons y ys =>
          by_cases hxy : x = y
          · subst hxy
            rcases ih ys with h | h
            · left; simpa [chars_le] using h
            · right; simpa [chars_le] using h
          · rcases lt_or_gt_of_ne hxy with h | h
            · left
              simp [chars_le, hxy, h]
            · right
              simp [chars_le, Ne.symm hxy, not_lt_of_gt h, h]

theorem chars_le_trans (a b c : List Char)
    (h1 : chars_le a b = true) (h2 : chars_le b c = true) :
    chars_le a c = true := by
  induction a generalizing b c with
  | nil => rfl
  | cons x xs ih =>
      cases b with
      | nil => simp [chars_le] at h1
      | cons y ys =>
          cases c with
          | nil => simp [chars_le] at h2
          | cons z zs =>
              by_cases hxy : x = y <;> by_cases hyz : y = z
              · subst hxy; subst hyz
                simp only [chars_le, if_pos rfl] at h1 h2 ⊢
                exact ih ys zs h1 h2
              · subst hxy
                simpa [chars_le, hyz] using h2
              · subst hyz
                simpa [chars_le, hxy] using h1
              · simp only [chars_le, if_neg hxy] at h1
                simp only [chars_le, if_neg hyz] at h2
                have hx : x < y := of_decide_eq_true h1
                have hy : y < z := of_decide_eq_true h2
                have hxz : x < z := lt_trans hx hy
                simp [chars_le, ne_of_lt hxz, hxz]

theorem insert_sorted_sorted (x : String) (l : List String)
    (h : l.Sorted (fun a b => str_le a b = true)) :
    (insert_sorted x l).Sorted (fun a b => str_le a b = true) := by
  induction l with
  | nil => simp [insert_sorted]
  | cons y ys ih =>
      rw [List.sorted_cons] at h
      obtain ⟨hy, hys⟩ := h
      unfold insert_sorted
      split_ifs with hxy
      · rw [List.sorted_cons]
        constructor
        · intro b hb
          rcases List.mem_cons.mp hb with rfl | hb
          · exact hxy
          · exact chars_le_trans _ _ _ hxy (hy b hb)
        · rw [List.sorted_cons]
          exact ⟨hy, hys⟩
      · rw [List.sorted_cons]
        refine ⟨?_, ih hys⟩
        intro b hb
        have hmem := (insert_sorted_perm x ys).mem_iff.mp hb
        rcases List.mem_cons.mp hmem with hbx | hb'
        · subst hbx
          rcases chars_le_total (String.toList b) (String.toList y) with h | h
          · exact absurd h hxy
          · exact h
        · exact hy b hb'

theorem sort_strings_perm (l : List String) : (sort_strings l).Perm l := by
  induction l with
  | nil => simp [sort_strings]
  | cons x xs ih =>
      have : sort_strings (x :: xs) = insert_sorted x (sort_strings xs) := rfl
      rw [this]
      exact List.Perm.trans (insert_sorted_perm x (sort_strings xs))
        (List.Perm.cons x ih)

theorem sort_strings_sorted (l : List String) :
    (sort_strings l).Sorted (fun a b => str_le a b = true) := by
  induction l with
  | nil => simp [sort_strings]
  | cons x xs ih => exact insert_sorted_sorted x (sort_strings xs) ih

/-- C7: `_script-order` manifest handling.  The spec's concrete scenario
holds: with files `a.js`, `b.js` and a manifest containing `b, a`, the
packaged order is `b.js` then `a.js`.  In general, a manifest name with
no matching direct file contributes the recursive listing of the
sub-collection directory `<group>/<name>`, lexically sorted, at that
position; and the embedded `Array.prototype.sort` really is a lexical
sort (a sorted permutation of its input). -/
theorem c7_script_order_manifest :
    sortJsFiles (fun _ => [])
      (fun p => if p = "scripts/widgets/_script-order.js" then some "b, a"
                else none)
      "scripts/widgets"
      ["scripts/widgets/a.js", "scripts/widgets/b.js",
       "scripts/widgets/_script-order.js"] =
      some ["scripts/widgets/b.js", "scripts/widgets/a.js"] ∧
    (∀ (listing : String → List String) (g : String)
        (files names : List String) (n : String),
      files.find? (fun p => path_name p = n) = none →
      sort_file_paths listing g files (n :: names) =
        sort_strings (listing (g ++ "/" ++ n)) ++
          sort_file_paths listing g files names) ∧
    (∀ l : List String,
      (sort_strings l).Sorted (fun a b => str_le a b = true) ∧
        (sort_strings l).Perm l) := by
  refine ⟨by decide, ?_, ?_⟩
  · intro listing g files names n h
    simp [sort_file_paths, h]
  · intro l
    exact ⟨sort_strings_sorted l, sort_strings_perm l⟩

/-- C7 witness: a manifest name that matches no direct file expands to
its sub-collection's files, lexically sorted. -/
theorem c7_witness :
    sort_file_paths (fun _ => ["scripts/w/t/z.js", "scripts/w/t/y.js"])
      "scripts/w" [] ["t"] =
      ["scripts/w/t/y.js", "scripts/w/t/z.js"] := by
  have h := c7_script_order_manifest.2.1
    (fun _ => ["scripts/w/t/z.js", "scripts/w/t/y.js"]) "scripts/w" [] [] "t"
    (by rfl)
  rw [h]
  decide

/-! ### `Link` header splitting -/

theorem split_chars_ne_nil (cs : List Char) : split_chars cs ≠ [] := by
  induction cs with
  | nil => simp [split_chars]
  | cons c rest ih =>
      unfold split_chars
      split_ifs
      · simp
      · cases h : split_chars rest with
        | nil => simp
        | cons f fs => simp [h]

theorem split_chars_delim (c : Char) (hc : c = '<' ∨ c = '>')
    (ys : List Char) : split_chars (c :: ys) = [] :: split_chars ys := by
  have hone : split_chars (c :: ys) =
      if c = '<' ∨ c = '>' then [] :: split_chars ys
      else
        match split_chars ys with
        | [] => [[c]]
        | f :: fs => (c :: f) :: fs := rfl
  rw [hone, if_pos hc]

theorem split_chars_append_clean (u : List Char)
    (hu : ∀ c ∈ u, ¬(c = '<' ∨ c = '>')) (ys : List Char) :
    split_chars (u ++ ys) =
      (u ++ (split_chars ys).headD []) :: (split_chars ys).tail := by
  induction u with
  | nil =>
      cases h : split_chars ys with
      | nil => exact absurd h (split_chars_ne_nil ys)
      | cons f fs => simp [h]
  | cons c cs ih =>
      have hc := hu c (List.mem_cons_self c cs)
      have hcs : ∀ x ∈ cs, ¬(x = '<' ∨ x = '>') :=
        fun x hx => hu x (List.mem_cons_of_mem c hx)
      simp only [List.cons_append]
      have hone : split_chars (c :: (cs ++ ys)) =
          if c = '<' ∨ c = '>' then [] :: split_chars (cs ++ ys)
          else
            match split_chars (cs ++ ys) with
            | [] => [[c]]
            | f :: fs => (c :: f) :: fs := rfl
      rw [hone, if_neg hc, ih hcs]

theorem split_on_angles_shape (u rest : String)
    (hu : ∀ c ∈ u.toList, ¬(c = '<' ∨ c = '>')) :
    split_on_angles ("<" ++ u ++ ">" ++ rest) =
      "" :: u :: split_on_angles rest := by
  unfold split_on_angles
  have h1 : ("<" ++ u ++ ">" ++ rest).toList =
      '<' :: (u.toList ++ ('>' :: rest.toList)) := by simp
  rw [h1, split_chars_delim '<' (Or.inl rfl),
    split_chars_append_clean u.toList hu ('>' :: rest.toList),
    split_chars_delim '>' (Or.inr rfl)]
  have hmk : String.mk u.toList = u := rfl
  simp [hmk]

theorem split_on_angles_mid (mid u2 rest : String)
    (hmid : ∀ c ∈ mid.toList, ¬(c = '<' ∨ c = '>'))
    (hu2 : ∀ c ∈ u2.toList, ¬(c = '<' ∨ c = '>')) :
    split_on_angles (mid ++ "<" ++ u2 ++ ">" ++ rest) =
      mid :: u2 :: split_on_angles rest := by
  unfold split_on_angles
  have h1 : (mid ++ "<" ++ u2 ++ ">" ++ rest).toList =
      mid.toList ++ ('<' :: (u2.toList ++ ('>' :: rest.toList))) := by simp
  rw [h1, split_chars_append_clean mid.toList hmid,
    split_chars_delim '<' (Or.inl rfl),
    split_chars_append_clean u2.toList hu2 ('>' :: rest.toList),
    split_chars_delim '>' (Or.inr rfl)]
  have hmk1 : String.mk mid.toList = mid := rfl
  have hmk2 : String.mk u2.toList = u2 := rfl
  simp [hmk1, hmk2]

/-- The aggregation loop of `download_resource`, from an arbitrary
accumulator. -/
theorem download_resource_aux {α : Type} (pages : List (ApiPage α)) :
    ∀ (acc : List α) (plast : ApiPage α),
      pages.getLast? = some plast →
      (∀ p ∈ pages.dropLast, truthy (extract_next p.link) = true) →
      extract_next plast.link = none →
      download_resource pages acc =
        (acc ++ (pages.map ApiPage.items).flatten, pages.length) := by
  induction pages with
  | nil =>
      intro acc plast hlast _ _
      simp at hlast
  | cons p rest ih =>
      intro acc plast hlast hall hnone
      cases rest with
      | nil =>
          simp at hlast
          subst hlast
          simp [download_resource, hnone, truthy]
      | cons q rest' =>
          have hp : truthy (extract_next p.link) = true := by
            apply hall
            simp [List.dropLast]
          have hlast' : (q :: rest').getLast? = some plast := by
            simpa using hlast
          have hall' : ∀ r ∈ (q :: rest').dropLast,
              truthy (extract_next r.link) = true := by
            intro r hr
            apply hall
            simp [List.dropLast]
            right
            simpa using hr
          have hrec := ih (acc ++ p.items) plast hlast' hall' hnone
          have hone : download_resource (p :: (q :: rest')) acc =
              (if truthy (extract_next p.link) = true then
                ((download_resource (q :: rest') (acc ++ p.items)).1,
                 (download_resource (q :: rest') (acc ++ p.items)).2 + 1)
               else (acc ++ p.items, 1)) := rfl
          rw [hone, if_pos hp, hrec]
          simp

/-- C6: pagination of the resource reader.  The cursor is derived from
the `Link` response header: a missing header, or one without a
`rel="next"` entry, yields `null`; a header whose only entry is the
`rel="next"` link yields that link's URL (the second split part); a
header carrying a `rel="previous"` entry before the `rel="next"` entry
yields the next-URL (the fourth split part).  Consequently, for a run
of `n` response pages of which exactly the first `n - 1` produce a
truthy cursor and the last produces `null`, the page request is issued
exactly `n` times and the aggregate result is the concatenation of all
pages' items in page order. -/
theorem c6_link_pagination :
    extract_next none = none ∧
    (∀ h : String, contains_substr h "rel=\"next\"" = false →
      extract_next (some h) = none) ∧
    (∀ u rest : String,
      (∀ c ∈ u.toList, ¬(c = '<' ∨ c = '>')) →
      contains_substr ("<" ++ u ++ ">" ++ rest) "rel=\"next\"" = true →
      contains_substr ("<" ++ u ++ ">" ++ rest) "rel=\"previous\"" = false →
      extract_next (some ("<" ++ u ++ ">" ++ rest)) = some u) ∧
    (∀ u1 mid u2 rest : String,
      (∀ c ∈ u1.toList, ¬(c = '<' ∨ c = '>')) →
      (∀ c ∈ mid.toList, ¬(c = '<' ∨ c = '>')) →
      (∀ c ∈ u2.toList, ¬(c = '<' ∨ c = '>')) →
      contains_substr ("<" ++ u1 ++ ">" ++ (mid ++ "<" ++ u2 ++ ">" ++ rest))
        "rel=\"next\"" = true →
      contains_substr ("<" ++ u1 ++ ">" ++ (mid ++ "<" ++ u2 ++ ">" ++ rest))
        "rel=\"previous\"" = true →
      extract_next (some ("<" ++ u1 ++ ">" ++ (mid ++ "<" ++ u2 ++ ">" ++ rest))) =
        some u2) ∧
    (∀ (α : Type) (pages : List (ApiPage α)) (plast : ApiPage α),
      pages.getLast? = some plast →
      (∀ p ∈ pages.dropLast, truthy (extract_next p.link) = true) →
      extract_next plast.link = none →
      download_resource pages [] =
        ((pages.map ApiPage.items).flatten, pages.length)) := by
  have hone : ∀ h : String, extract_next (some h) =
      if contains_substr h "rel=\"next\"" = true then
        (if contains_substr h "rel=\"previous\"" = true then
          (split_on_angles h)[3]? else (split_on_angles h)[1]?)
      else none := fun _ => rfl
  refine ⟨rfl, ?_, ?_, ?_, ?_⟩
  · intro h hno
    rw [hone, if_neg (by simp [hno])]
  · intro u rest hu hnext hprev
    rw [hone, if_pos (by simp [hnext]), if_neg (by simp [hprev]),
      split_on_angles_shape u rest hu]
    simp
  · intro u1 mid u2 rest hu1 hmid hu2 hnext hprev
    rw [hone, if_pos (by simp [hnext]), if_pos (by simp [hprev]),
      split_on_angles_shape u1 (mid ++ "<" ++ u2 ++ ">" ++ rest) hu1,
      split_on_angles_mid mid u2 rest hmid hu2]
    simp
  · intro α pages plast hlast hall hnone
    simpa using download_resource_aux pages [] plast hlast hall hnone

/-- C6 witness: three concrete pages, the first two carrying a
`rel="next"` link (the second also a `rel="previous"` one), the third
none. -/
theorem c6_witness :
    download_resource
      ([⟨[1, 2], some "<u2>; rel=\"next\""⟩,
        ⟨[3], some "<u2>; rel=\"previous\", <u3>; rel=\"next\""⟩,
        ⟨[4, 5], none⟩] : List (ApiPage Nat)) [] =
      ([1, 2, 3, 4, 5], 3) := by
  have h := c6_link_pagination.2.2.2.2 Nat
    [⟨[1, 2], some "<u2>; rel=\"next\""⟩,
     ⟨[3], some "<u2>; rel=\"previous\", <u3>; rel=\"next\""⟩,
     ⟨[4, 5], none⟩]
    ⟨[4, 5], none⟩ (by rfl) (by decide) (by rfl)
  rw [h]
  rfl

end ShopifyDevUtils
